import Mathlib

/-!
# Shallow embedding of the RANSAC engine (`src/ransac.c`)

The C program is a generic RANSAC consensus engine.  We embed it in Lean:

* machine `float` values become `ℚ` (the engine only compares errors, never
  does float-specific arithmetic itself);
* the process-global `rand()` source becomes an explicit stream
  `rng : ℕ → ℕ` together with a position `p : ℕ` that advances by one for
  every call to `rand()`;
* the two fatal exits of the C code (`fail(...)` inside
  `fill_random_indices`, and the `assert(e >= 0)` inside `ransac_trial`)
  and the undefined modulo-by-zero of `random_index` when `b - a = 0`
  become explicit error values in an `Except`-style result.

Every definition follows the corresponding C function line by line.
-/

namespace RansacC

/-- The abnormal outcomes of the C code: `fatal` is the `fail(...)` call in
`fill_random_indices`; `assertViolation` is the failed `assert(e >= 0)` in
`ransac_trial`; `ub` marks the undefined behaviour `rand() % 0` in
`random_index` when `b - a = 0`; `allocFailure` is the fatal abort of
`xmalloc` on a zero-size request when `ransac` sizes its scratch masks. -/
inductive RFail where
  | fatal : RFail
  | assertViolation : RFail
  | ub : RFail
  | allocFailure : RFail
deriving DecidableEq

/-- `static int random_index(int a, int b)`: returns `a + rand() % (b - a)`.
`r` is the value produced by this call's `rand()`.  When `b ≤ a` the modulo
divides by zero (for `b = a`; `b < a` cannot arise in this program either),
which is undefined behaviour in C, marked `.ub` here. -/
def random_index (r a b : ℕ) : Except RFail ℕ :=
  if a < b then .ok (a + r % (b - a)) else .error .ub

/-- The inner `for` loop of `fill_random_indices`: draw `k` indices using the
`rand()` values at stream positions `p, p+1, …, p+k-1`. -/
def draw_batch (rng : ℕ → ℕ) (a b : ℕ) : ℕ → ℕ → Except RFail (List ℕ)
  | _, 0 => .ok []
  | p, k + 1 =>
    match random_index (rng p) a b with
    | .error e => .error e
    | .ok i =>
      match draw_batch rng a b (p + 1) k with
      | .error e => .error e
      | .ok rest => .ok (i :: rest)

/-- The scan of `are_different` after the `qsort`: `false` iff two adjacent
entries are equal. -/
def no_adjacent_dups : List ℕ → Bool
  | [] => true
  | [_] => true
  | x :: y :: rest => if x = y then false else no_adjacent_dups (y :: rest)

/-- `static bool are_different(int *t, int n)`: sorts the buffer in place
(`qsort` with an `int` comparator = sorting by `≤`) and scans for adjacent
duplicates.  Returns the sorted buffer together with the boolean. -/
def are_different (t : List ℕ) : List ℕ × Bool :=
  let s := List.insertionSort (· ≤ ·) t
  (s, no_adjacent_dups s)

/-- The `do … while (safecount < 10 && !are_different(idx, n))` loop of
`fill_random_indices`, recursing on the number of draws still allowed.
The initial call uses `attempts = 10`.  An iteration with `attempts = 1`
is the tenth draw: the loop condition `safecount < 10` is then false (and,
by short-circuiting, `are_different` is not called), the loop exits with
`safecount == 10`, and `fail("could not generate any model")` runs. -/
def fill_go (rng : ℕ → ℕ) (nidx a b : ℕ) : ℕ → ℕ → Except RFail (List ℕ × ℕ)
  | _, 0 => .error .fatal
  | p, attempts + 1 =>
    match draw_batch rng a b p nidx with
    | .error e => .error e
    | .ok idx =>
      if attempts = 0 then .error .fatal
      else
        if (are_different idx).2 then .ok ((are_different idx).1, p + nidx)
        else fill_go rng nidx a b (p + nidx) attempts

/-- `static void fill_random_indices(int *idx, int n, int a, int b)`:
generate `nidx` distinct ints in `[a, b)`, giving up fatally after the
retry bound.  On success it returns the indices (sorted in place by
`are_different`) and the new stream position. -/
def fill_random_indices (rng : ℕ → ℕ) (nidx a b p : ℕ) : Except RFail (List ℕ × ℕ) :=
  fill_go rng nidx a b p 10

/-- `float *datai = data + i*datadim`: the `datadim` fields of point `i`
inside the flat data array. -/
def datapoint (data : List ℚ) (datadim i : ℕ) : List ℚ :=
  (data.drop (i * datadim)).take datadim

/-- The loop body of `ransac_trial`, iterated over the point indices:
computes `e = mev(model, datai)`, checks `assert(e >= 0)`, appends
`e < max_error` to the mask and bumps the count for an inlier. -/
def trial_go (data model : List ℚ) (max_error : ℚ) (datadim : ℕ)
    (mev : List ℚ → List ℚ → ℚ) :
    List ℕ → List Bool × ℕ → Except RFail (List Bool × ℕ)
  | [], acc => .ok acc
  | i :: rest, acc =>
    let e := mev model (datapoint data datadim i)
    if e < 0 then .error .assertViolation
    else
      trial_go data model max_error datadim mev rest
        (acc.1 ++ [decide (e < max_error)], if e < max_error then acc.2 + 1 else acc.2)

/-- `int ransac_trial(bool *out_mask, float *data, float *model, float
max_error, int datadim, int n, ransac_error_evaluation_function *mev, void
*usr)`: scores a model over all `n` points, returning the inlier mask and
the inlier count. -/
def ransac_trial (data model : List ℚ) (max_error : ℚ) (datadim n : ℕ)
    (mev : List ℚ → List ℚ → ℚ) : Except RFail (List Bool × ℕ) :=
  trial_go data model max_error datadim mev (List.range n) ([], 0)

/-- The configuration of one `ransac` invocation: everything except the
data array and the caller's output buffers. -/
structure RansacCfg where
  datadim : ℕ
  n : ℕ
  modeldim : ℕ
  mev : List ℚ → List ℚ → ℚ
  mgen : List ℚ → List ℚ
  nfit : ℕ
  ntrials : ℕ
  min_inliers : ℕ
  max_error : ℚ
  macc : Option (List ℚ → Bool)

/-- The best-so-far record of `ransac`: the locals `best_ninliers`,
`best_model` and `best_mask`. -/
structure BestRec where
  ninliers : ℕ
  model : List ℚ
  mask : List Bool
deriving DecidableEq

/-- The nested copy loop of `ransac`:
`x[datadim*j + k] = data[datadim*indices[j] + k]` materialises the sampled
points, in sample order, into the compact buffer handed to `mgen`. -/
def materialize (data : List ℚ) (datadim : ℕ) (indices : List ℕ) : List ℚ :=
  (indices.map (fun i => datapoint data datadim i)).flatten

/-- The observable outcome of one iteration of the trial loop: an abnormal
exit, a `continue` caused by the acceptance predicate (carrying the new
stream position), or a scored candidate with its inlier count, model, mask
and the new stream position. -/
inductive TrialEvent where
  | err : RFail → TrialEvent
  | rejected : ℕ → TrialEvent
  | scored : ℕ → List ℚ → List Bool → ℕ → TrialEvent
deriving DecidableEq

/-- The scoring tail of one trial: `ransac_trial` on the candidate model. -/
def score_event (cfg : RansacCfg) (data model : List ℚ) (pNext : ℕ) : TrialEvent :=
  match ransac_trial data model cfg.max_error cfg.datadim cfg.n cfg.mev with
  | .error e => .err e
  | .ok mc => .scored mc.2 model mc.1 pNext

/-- One iteration of the trial loop of `ransac`, up to (but not including)
the comparison with the best-so-far record: sample, materialise, generate,
and apply the acceptance predicate `macc` when one is configured
(`if (macc && !macc(model, usr)) continue;`). -/
def trial_event (cfg : RansacCfg) (data : List ℚ) (rng : ℕ → ℕ) (p : ℕ) : TrialEvent :=
  match fill_random_indices rng cfg.nfit 0 cfg.n p with
  | .error e => .err e
  | .ok ip =>
    let model := cfg.mgen (materialize data cfg.datadim ip.1)
    match cfg.macc with
    | some acc =>
      if acc model then score_event cfg data model ip.2
      else .rejected ip.2
    | none => score_event cfg data model ip.2

/-- One full iteration of the trial loop: the event above followed by the
`if (n_inliers > best_ninliers)` update of the best-so-far record. -/
def ransac_trial_step (cfg : RansacCfg) (data : List ℚ) (rng : ℕ → ℕ)
    (st : BestRec × ℕ) : Except RFail (BestRec × ℕ) :=
  match trial_event cfg data rng st.2 with
  | .err e => .error e
  | .rejected pNext => .ok (st.1, pNext)
  | .scored c model mask pNext =>
    if st.1.ninliers < c then .ok (⟨c, model, mask⟩, pNext)
    else .ok (st.1, pNext)

/-- The `for (int i = 0; i < ntrials; i++)` loop: `k` successive trials
starting from state `st`. -/
def ransac_trials (cfg : RansacCfg) (data : List ℚ) (rng : ℕ → ℕ) :
    BestRec × ℕ → ℕ → Except RFail (BestRec × ℕ)
  | st, 0 => .ok st
  | st, k + 1 =>
    match ransac_trial_step cfg data rng st with
    | .error e => .error e
    | .ok st' => ransac_trials cfg data rng st' k

/-- Derived observation: the inlier counts of the accepted (scored) trials
among `k` trials starting at stream position `p`, in trial order.  (It is
built from the same `trial_event` as the engine; a trial that exits
abnormally ends the list.) -/
def accepted_counts (cfg : RansacCfg) (data : List ℚ) (rng : ℕ → ℕ) :
    ℕ → ℕ → List ℕ
  | _, 0 => []
  | p, k + 1 =>
    match trial_event cfg data rng p with
    | .err _ => []
    | .rejected pNext => accepted_counts cfg data rng pNext k
    | .scored c _ _ pNext => c :: accepted_counts cfg data rng pNext k

/-- The memory `ransac` can reach besides its locals: the input data array
and the caller's two output buffers. -/
structure Buffers where
  data : List ℚ
  out_model : List ℚ
  out_mask : List Bool
deriving DecidableEq

/-- Modelled from the spec: `xmalloc` lives in `xmalloc.c`, which
`ransac.c` includes but which is not among the engine sources under
`src/`.  It sizes the per-invocation scratch buffers (the spec's
"scratch buffers sized once per invocation"); a zero-size request is a
fatal configuration error — `xmalloc` aborts fatally with a diagnostic
instead of returning — and otherwise the requested buffer is returned.
Only this success/fatal-abort outcome is modelled. -/
def xmalloc (size : ℕ) : Except RFail ℕ :=
  if size = 0 then .error .allocFailure else .ok size

/-- The body of `ransac` from the trial loop on — everything after the
two scratch allocations at lines 148-149 have succeeded: run `ntrials`
trials from `best_ninliers = 0` (the stack arrays `best_model` and
`best_mask` start uninitialised, modelled by the arbitrary `junk_model`
and `junk_mask`), then apply the minimum-inlier gate: on
`best_ninliers >= min_inliers` copy model and mask out and return the
count, otherwise return `0` leaving the output buffers untouched.
Returns the C return value together with the final memory. -/
def ransac_after_alloc (cfg : RansacCfg) (rng : ℕ → ℕ) (p : ℕ)
    (junk_model : List ℚ) (junk_mask : List Bool) (bufs : Buffers) :
    Except RFail (ℕ × Buffers) :=
  match ransac_trials cfg bufs.data rng (⟨0, junk_model, junk_mask⟩, p) cfg.ntrials with
  | .error e => .error e
  | .ok bp =>
    if cfg.min_inliers ≤ bp.1.ninliers then
      .ok (bp.1.ninliers, { bufs with out_model := bp.1.model, out_mask := bp.1.mask })
    else
      .ok (0, bufs)

/-- `int ransac(bool *out_mask, float *out_model, float *data, …)`: first
allocate the two scratch masks `best_mask` and `tmp_mask` of
`n * sizeof(bool)` bytes each (lines 148-149) — with `n = 0` these are
zero-size requests and `xmalloc` aborts fatally before the first trial —
then run the trial loop and the minimum-inlier gate. -/
def ransac (cfg : RansacCfg) (rng : ℕ → ℕ) (p : ℕ)
    (junk_model : List ℚ) (junk_mask : List Bool) (bufs : Buffers) :
    Except RFail (ℕ × Buffers) :=
  match xmalloc cfg.n with
  | .error e => .error e
  | .ok _ =>
    match xmalloc cfg.n with
    | .error e => .error e
    | .ok _ => ransac_after_alloc cfg rng p junk_model junk_mask bufs

/-! ### Concrete instances used by the witnesses -/

/-- A degenerate random stream: `rand()` always returns `0`. -/
def rngW : ℕ → ℕ := fun _ => 0

/-- A tiny concrete configuration: two 1-dimensional points, one-point
samples, one trial, the error of a point being the point's own value. -/
def cfgW : RansacCfg where
  datadim := 1
  n := 2
  modeldim := 1
  mev := fun _ d => d.headD 0
  mgen := fun x => x
  nfit := 1
  ntrials := 1
  min_inliers := 0
  max_error := 1
  macc := none

/-- `cfgW` with a minimum-inlier threshold the data cannot reach. -/
def cfgM : RansacCfg := { cfgW with min_inliers := 2 }

/-- `cfgW` with an acceptance predicate that rejects every model. -/
def cfgA : RansacCfg := { cfgW with macc := some (fun _ => false) }

/-- `cfgW` on an empty data set. -/
def cfg0 : RansacCfg := { cfgW with n := 0 }

/-- Concrete memory: the data points `0` and `5` and stale output
buffers. -/
def bufsW : Buffers where
  data := [0, 5]
  out_model := [9]
  out_mask := [true, true]

/-! ## Lemmas about the trial scorer -/

/-- If every error in sight is non-negative, the scorer loop runs to the end,
appending one mask bit per point and counting the `true` bits it appends. -/
theorem trial_go_ok_of_nonneg (data model : List ℚ) (me : ℚ) (dd : ℕ)
    (mev : List ℚ → List ℚ → ℚ) (l : List ℕ) (m : List Bool) (c : ℕ)
    (h : ∀ i ∈ l, 0 ≤ mev model (datapoint data dd i)) :
    trial_go data model me dd mev l (m, c) =
      .ok (m ++ l.map (fun i => decide (mev model (datapoint data dd i) < me)),
        c + (l.map (fun i => decide (mev model (datapoint data dd i) < me))).count true) := by
  induction l generalizing m c with
  | nil => simp [trial_go]
  | cons i rest ih =>
    have hi : ¬ mev model (datapoint data dd i) < 0 :=
      not_lt.mpr (h i (by simp))
    have hrest : ∀ j ∈ rest, 0 ≤ mev model (datapoint data dd j) := by
      intro j hj; exact h j (by simp [hj])
    rw [trial_go, if_neg hi, ih _ _ hrest]
    by_cases hlt : mev model (datapoint data dd i) < me <;>
      simp [hlt, List.count_cons]
    all_goals omega

/-- If some point in the list has a negative error, the scorer loop hits the
`assert(e >= 0)` and aborts. -/
theorem trial_go_neg (data model : List ℚ) (me : ℚ) (dd : ℕ)
    (mev : List ℚ → List ℚ → ℚ) (l : List ℕ) (acc : List Bool × ℕ)
    (h : ∃ i ∈ l, mev model (datapoint data dd i) < 0) :
    trial_go data model me dd mev l acc = .error .assertViolation := by
  induction l generalizing acc with
  | nil => simp at h
  | cons i rest ih =>
    by_cases hi : mev model (datapoint data dd i) < 0
    · rw [trial_go, if_pos hi]
    · obtain ⟨j, hj, hneg⟩ := h
      have hjr : j ∈ rest := by
        rcases List.mem_cons.mp hj with rfl | hr
        · exact absurd hneg hi
        · exact hr
      rw [trial_go, if_neg hi]
      exact ih _ ⟨j, hjr, hneg⟩

/-- The only abnormal exit of the scorer loop is the assertion violation. -/
theorem trial_go_error_eq (data model : List ℚ) (me : ℚ) (dd : ℕ)
    (mev : List ℚ → List ℚ → ℚ) (l : List ℕ) (acc : List Bool × ℕ) (e : RFail)
    (h : trial_go data model me dd mev l acc = .error e) : e = .assertViolation := by
  induction l generalizing acc with
  | nil => simp [trial_go] at h
  | cons i rest ih =>
    rw [trial_go] at h
    split at h
    · cases h; rfl
    · exact ih _ h

/-- Reading entry `i` of `(List.range n).map f`. -/
theorem getD_map_range (f : ℕ → Bool) (n i : ℕ) (h : i < n) :
    ((List.range n).map f).getD i false = f i := by
  rw [List.getD_eq_getElem?_getD, List.getElem?_map, List.getElem?_range h]
  rfl

/-- C3: for every call to the single-trial scorer `ransac_trial` over `n`
data points that returns, the returned inlier count equals the number of
`true` entries in the output mask, and mask entry `i` is `true` iff the
evaluated error of point `i` is strictly less than `max_error` (a point
whose error equals the threshold is an outlier). -/
theorem ransac_trial_mask_count_consistency (data model : List ℚ) (me : ℚ)
    (dd n : ℕ) (mev : List ℚ → List ℚ → ℚ) (mask : List Bool) (cx : ℕ)
    (h : ransac_trial data model me dd n mev = .ok (mask, cx)) :
    cx = mask.count true ∧ mask.length = n ∧
      ∀ i, i < n → mask.getD i false = decide (mev model (datapoint data dd i) < me) := by
  by_cases hn : ∀ i ∈ List.range n, 0 ≤ mev model (datapoint data dd i)
  · rw [ransac_trial, trial_go_ok_of_nonneg data model me dd mev _ _ _ hn] at h
    obtain ⟨rfl, rfl⟩ : mask = (List.range n).map
          (fun i => decide (mev model (datapoint data dd i) < me)) ∧
        0 + ((List.range n).map
          (fun i => decide (mev model (datapoint data dd i) < me))).count true = cx := by
      have := Except.ok.inj h
      exact ⟨(Prod.mk.injEq _ _ _ _ ▸ this).1.symm, (Prod.mk.injEq _ _ _ _ ▸ this).2⟩
    refine ⟨by omega, by simp, ?_⟩
    intro i hi
    exact getD_map_range _ n i hi
  · push_neg at hn
    rw [ransac_trial, trial_go_neg data model me dd mev _ _
      (by obtain ⟨i, hi, hlt⟩ := hn; exact ⟨i, hi, hlt⟩)] at h
    cases h

/-- Witness for C3 at a concrete input: two 1-dimensional points `0` and
`10`, model `[0]`, threshold `1`, errors read off the point value. -/
theorem ransac_trial_mask_count_consistency_witness :
    (1 : ℕ) = List.count true [true, false] ∧
      List.length [true, false] = 2 ∧
      List.getD [true, false] 0 false = true := by
  have h := ransac_trial_mask_count_consistency [0, 10] [0] 1 1 2
    (fun _ d => d.headD 0) [true, false] 1 (by rfl)
  refine ⟨h.1, h.2.1, ?_⟩
  rw [h.2.2 0 (by omega)]
  rfl

/-- C7: for every point scored by `ransac_trial`, the evaluated error is
required to be non-negative: a negative error aborts through the
`assert(e >= 0)` (is not silently absorbed into the inlier decision), and
under the precondition that every error is non-negative the assertion
never fires and the scorer returns normally. -/
theorem ransac_trial_negative_error_assert (data model : List ℚ) (me : ℚ)
    (dd n : ℕ) (mev : List ℚ → List ℚ → ℚ) :
    ((∀ i, i < n → 0 ≤ mev model (datapoint data dd i)) →
      ransac_trial data model me dd n mev =
        .ok ((List.range n).map (fun i => decide (mev model (datapoint data dd i) < me)),
          ((List.range n).map
            (fun i => decide (mev model (datapoint data dd i) < me))).count true)) ∧
    ((∃ i, i < n ∧ mev model (datapoint data dd i) < 0) →
      ransac_trial data model me dd n mev = .error .assertViolation) := by
  constructor
  · intro h
    rw [ransac_trial, trial_go_ok_of_nonneg data model me dd mev _ _ _
      (fun i hi => h i (List.mem_range.mp hi))]
    simp
  · intro ⟨i, hi, hneg⟩
    exact trial_go_neg data model me dd mev _ _ ⟨i, List.mem_range.mpr hi, hneg⟩

/-- Witness for C7: a non-negative-error instance returns normally, and an
instance whose single point evaluates to `-1` trips the assertion. -/
theorem ransac_trial_negative_error_assert_witness :
    ransac_trial [0, 10] [0] 1 1 2 (fun _ d => d.headD 0) =
      .ok ([true, false], 1) ∧
    ransac_trial [-1] [0] 1 1 1 (fun _ d => d.headD 0) = .error .assertViolation := by
  constructor
  · rw [(ransac_trial_negative_error_assert [0, 10] [0] 1 1 2
      (fun _ d => d.headD 0)).1 (by decide)]
    rfl
  · exact (ransac_trial_negative_error_assert [-1] [0] 1 1 1 (fun _ d => d.headD 0)).2
      ⟨0, by omega, by norm_num [datapoint]⟩

/-! ## Lemmas about the sampler -/

/-- When `a < b`, `random_index` returns `a + r % (b - a)`. -/
theorem random_index_of_lt (r a b : ℕ) (h : a < b) :
    random_index r a b = .ok (a + r % (b - a)) := by
  simp [random_index, h]

/-- When `b ≤ a` (in this program: `b = a = 0`), the modulo in
`random_index` divides by zero. -/
theorem random_index_of_ge (r a b : ℕ) (h : b ≤ a) :
    random_index r a b = .error .ub := by
  simp [random_index, Nat.not_lt.mpr h]

/-- A successfully drawn index lies in `[a, b)` (the two `assert`s of
`random_index`). -/
theorem random_index_ok_bounds (r a b x : ℕ) (h : random_index r a b = .ok x) :
    a ≤ x ∧ x < b := by
  rw [random_index] at h
  split at h
  · cases h
    refine ⟨Nat.le_add_right _ _, ?_⟩
    have : r % (b - a) < b - a := Nat.mod_lt _ (by omega)
    omega
  · cases h

/-- Every index of a successfully drawn batch lies in `[a, b)`. -/
theorem draw_batch_ok_mem (rng : ℕ → ℕ) (a b : ℕ) :
    ∀ k p l, draw_batch rng a b p k = .ok l → ∀ x ∈ l, a ≤ x ∧ x < b := by
  intro k
  induction k with
  | zero => intro p l h x hx; cases h; simp at hx
  | succ k ih =>
    intro p l h x hx
    rw [draw_batch] at h
    cases hri : random_index (rng p) a b with
    | error e => rw [hri] at h; cases h
    | ok i =>
      rw [hri] at h
      cases hdb : draw_batch rng a b (p + 1) k with
      | error e => rw [hdb] at h; cases h
      | ok rest =>
        rw [hdb] at h
        cases h
        rcases List.mem_cons.mp hx with rfl | hr
        · exact random_index_ok_bounds _ a b x hri
        · exact ih (p + 1) rest hdb x hr

/-- A successfully drawn batch has the requested length. -/
theorem draw_batch_ok_length (rng : ℕ → ℕ) (a b : ℕ) :
    ∀ k p l, draw_batch rng a b p k = .ok l → l.length = k := by
  intro k
  induction k with
  | zero => intro p l h; cases h; rfl
  | succ k ih =>
    intro p l h
    rw [draw_batch] at h
    cases hri : random_index (rng p) a b with
    | error e => rw [hri] at h; cases h
    | ok i =>
      rw [hri] at h
      cases hdb : draw_batch rng a b (p + 1) k with
      | error e => rw [hdb] at h; cases h
      | ok rest => rw [hdb] at h; cases h; simp [ih (p + 1) rest hdb]

/-- When `a < b` every batch draw succeeds. -/
theorem draw_batch_isOk (rng : ℕ → ℕ) (a b : ℕ) (hab : a < b) :
    ∀ k p, ∃ l, draw_batch rng a b p k = .ok l := by
  intro k
  induction k with
  | zero => intro p; exact ⟨[], rfl⟩
  | succ k ih =>
    intro p
    obtain ⟨l, hl⟩ := ih (p + 1)
    refine ⟨(a + rng p % (b - a)) :: l, ?_⟩
    rw [draw_batch, random_index_of_lt _ _ _ hab, hl]

/-- When `b ≤ a` and at least one index is requested, the very first call
to `random_index` takes a modulo by zero. -/
theorem draw_batch_ub (rng : ℕ → ℕ) (a b : ℕ) (hab : b ≤ a) (k p : ℕ) (hk : 0 < k) :
    draw_batch rng a b p k = .error .ub := by
  cases k with
  | zero => omega
  | succ k => rw [draw_batch, random_index_of_ge _ _ _ hab]

/-- A chain of `≤` whose adjacent entries are pairwise different is a chain
of `<`. -/
theorem chain_lt_of_chain_le (s : List ℕ) (hs : List.Chain' (· ≤ ·) s)
    (hd : no_adjacent_dups s = true) : List.Chain' (· < ·) s := by
  induction s with
  | nil => simp
  | cons x t ih =>
    cases t with
    | nil => simp
    | cons y u =>
      rw [List.chain'_cons] at hs ⊢
      rw [no_adjacent_dups] at hd
      split at hd
      · cases hd
      · next hxy => exact ⟨lt_of_le_of_ne hs.1 hxy, ih hs.2 hd⟩

/-- When `are_different` reports `true`, the (sorted-in-place) buffer it
returns is strictly increasing, a permutation of the draw, and of the same
length. -/
theorem are_different_spec (t : List ℕ) (h : (are_different t).2 = true) :
    List.Sorted (· < ·) (are_different t).1 ∧ (are_different t).1.Perm t ∧
      (are_different t).1.length = t.length := by
  have hsorted : List.Sorted (· ≤ ·) (List.insertionSort (· ≤ ·) t) :=
    List.sorted_insertionSort _ t
  have hchain : List.Chain' (· < ·) (List.insertionSort (· ≤ ·) t) :=
    chain_lt_of_chain_le _ hsorted.chain' h
  exact ⟨List.chain'_iff_pairwise.mp hchain, List.perm_insertionSort _ t,
    List.length_insertionSort _ t⟩

/-- A strictly increasing list has no duplicates. -/
theorem nodup_of_sorted_lt (s : List ℕ) (h : List.Sorted (· < ·) s) : s.Nodup :=
  h.imp Nat.ne_of_lt

/-- If the drawn buffer has a duplicate, `are_different` reports `false`. -/
theorem are_different_false_of_not_nodup (t : List ℕ) (h : ¬ t.Nodup) :
    (are_different t).2 = false := by
  cases hb : (are_different t).2 with
  | false => rfl
  | true =>
    obtain ⟨hs, hp, -⟩ := are_different_spec t hb
    exact absurd (hp.nodup_iff.mp (nodup_of_sorted_lt _ hs)) h

/-- One unfolding of the retry loop when the batch draw fails. -/
theorem fill_go_succ_of_error (rng : ℕ → ℕ) (nidx a b p al : ℕ) (e : RFail)
    (hdb : draw_batch rng a b p nidx = .error e) :
    fill_go rng nidx a b p (al + 1) = .error e := by
  rw [fill_go, hdb]

/-- One unfolding of the retry loop when the batch draw succeeds. -/
theorem fill_go_succ_of_ok (rng : ℕ → ℕ) (nidx a b p al : ℕ) (batch : List ℕ)
    (hdb : draw_batch rng a b p nidx = .ok batch) :
    fill_go rng nidx a b p (al + 1) =
      if al = 0 then .error .fatal
      else
        if (are_different batch).2 then .ok ((are_different batch).1, p + nidx)
        else fill_go rng nidx a b (p + nidx) al := by
  rw [fill_go, hdb]

/-- Inversion of a successful sampler run: some iteration drew a batch at
some position `q`, `are_different` held on it, the returned buffer is its
sorted form, and the stream advanced past that batch. -/
theorem fill_go_ok (rng : ℕ → ℕ) (nidx a b : ℕ) :
    ∀ al p idx pNext, fill_go rng nidx a b p al = .ok (idx, pNext) →
      ∃ q batch, draw_batch rng a b q nidx = .ok batch ∧
        (are_different batch).1 = idx ∧ (are_different batch).2 = true ∧
        pNext = q + nidx := by
  intro al
  induction al with
  | zero => intro p idx pNext h; cases h
  | succ al ih =>
    intro p idx pNext h
    cases hdb : draw_batch rng a b p nidx with
    | error e => rw [fill_go_succ_of_error rng nidx a b p al e hdb] at h; cases h
    | ok batch =>
      rw [fill_go_succ_of_ok rng nidx a b p al batch hdb] at h
      split at h
      · cases h
      · split at h
        · next hs =>
          cases h
          exact ⟨p, batch, hdb, rfl, hs, rfl⟩
        · exact ih _ _ _ h

/-- C4: whenever the sampler returns normally, the `nfit` indices it
produced are pairwise distinct and all lie in `[0, N)`; hence a sample
with a repeated index is never materialised for the model-generating
function (the trial loop hands `mgen` exactly this index list). -/
theorem fill_random_indices_distinct_in_range (rng : ℕ → ℕ)
    (nfit N p : ℕ) (idx : List ℕ) (pNext : ℕ)
    (h : fill_random_indices rng nfit 0 N p = .ok (idx, pNext)) :
    idx.length = nfit ∧ idx.Nodup ∧ ∀ x ∈ idx, x < N := by
  obtain ⟨q, batch, hdb, hidx, htrue, -⟩ := fill_go_ok rng nfit 0 N 10 p idx pNext h
  obtain ⟨hs, hp, hl⟩ := are_different_spec batch htrue
  rw [hidx] at hs hp hl
  refine ⟨hl.trans (draw_batch_ok_length rng 0 N nfit q batch hdb), ?_, ?_⟩
  · exact nodup_of_sorted_lt idx hs
  · intro x hx
    exact (draw_batch_ok_mem rng 0 N nfit q batch hdb x (hp.mem_iff.mp hx)).2

/-- Witness for C4: with the identity stream the first batch `[0, 1]` is
already distinct. -/
theorem fill_random_indices_distinct_in_range_witness :
    List.length [0, 1] = 2 ∧ List.Nodup [0, 1] ∧ (0 : ℕ) < 3 := by
  have h := fill_random_indices_distinct_in_range (fun k => k) 2 3 0 [0, 1] 2 (by rfl)
  exact ⟨h.1, h.2.1, h.2.2 0 (by simp)⟩

/-- C9: the distinctness check sorts the index buffer in place, so the
indices returned by the sampler — the very list the trial loop then
materialises for the model generator — are in strictly increasing order,
whatever the order of the random draws. -/
theorem fill_random_indices_sorted (rng : ℕ → ℕ) (nidx a b p : ℕ)
    (idx : List ℕ) (pNext : ℕ)
    (h : fill_random_indices rng nidx a b p = .ok (idx, pNext)) :
    List.Sorted (· < ·) idx := by
  obtain ⟨q, batch, -, hidx, htrue, -⟩ := fill_go_ok rng nidx a b 10 p idx pNext h
  obtain ⟨hs, -, -⟩ := are_different_spec batch htrue
  rwa [hidx] at hs

/-- Witness for C9: the stream drawing `1` then `0` still yields the
sorted sample `[0, 1]`. -/
theorem fill_random_indices_sorted_witness : List.Sorted (· < ·) [0, 1] :=
  fill_random_indices_sorted (fun k => 1 - k) 2 0 3 0 [0, 1] 2 (by rfl)

/-- The retry loop with `al ≥ 1` attempts left fails fatally iff each of
the batches it *checks* — the first `al - 1` ones; the last draw is made
but, by the short-circuit in `safecount < 10 && !are_different(idx, n)`,
never checked — has a repeated entry.  (Requires `a < b` so that drawing
itself cannot abort.) -/
theorem fill_go_fatal_iff (rng : ℕ → ℕ) (nidx a b : ℕ) (hab : a < b) :
    ∀ al p, 1 ≤ al →
      (fill_go rng nidx a b p al = .error .fatal ↔
        ∀ t, t + 1 < al → ∀ batch,
          draw_batch rng a b (p + t * nidx) nidx = .ok batch →
          (are_different batch).2 = false) := by
  intro al
  induction al with
  | zero => omega
  | succ al ih =>
    intro p _
    obtain ⟨batch, hdb⟩ := draw_batch_isOk rng a b hab nidx p
    rw [fill_go_succ_of_ok rng nidx a b p al batch hdb]
    cases al with
    | zero =>
      simp only [if_pos rfl]
      constructor
      · intro _ t ht; omega
      · intro _; rfl
    | succ al =>
      rw [if_neg (by omega)]
      cases hs : (are_different batch).2 with
      | true =>
        rw [if_pos rfl]
        constructor
        · intro h; cases h
        · intro h
          have h0 : (p + 0 * nidx) = p := by omega
          have := h 0 (by omega) batch (by rw [h0]; exact hdb)
          rw [hs] at this
          cases this
      | false =>
        rw [if_neg (by simp)]
        rw [ih (p + nidx) (by omega)]
        constructor
        · intro h t ht batchT hdbT
          cases t with
          | zero =>
            have h0 : (p + 0 * nidx) = p := by omega
            rw [h0] at hdbT
            rw [hdb] at hdbT
            cases hdbT
            exact hs
          | succ t =>
            refine h t (by omega) batchT ?_
            have harith : p + nidx + t * nidx = p + (t + 1) * nidx := by ring
            rw [harith]
            exact hdbT
        · intro h t ht batchT hdbT
          refine h (t + 1) (by omega) batchT ?_
          have harith : p + (t + 1) * nidx = p + nidx + t * nidx := by ring
          rw [harith]
          exact hdbT

/-- A list of more than `b - a` naturals all lying in `[a, b)` has a
repeat. -/
theorem not_nodup_of_length_gt (l : List ℕ) (a b : ℕ)
    (hmem : ∀ x ∈ l, a ≤ x ∧ x < b) (hlen : b - a < l.length) : ¬ l.Nodup := by
  intro hnd
  have h1 : l.toFinset.card = l.length := List.toFinset_card_of_nodup hnd
  have h2 : l.toFinset ⊆ Finset.Ico a b := by
    intro x hx
    have := hmem x (List.mem_toFinset.mp hx)
    rw [Finset.mem_Ico]
    omega
  have h3 := Finset.card_le_card h2
  rw [h1, Nat.card_Ico] at h3
  omega

/-- C5 (amended): with a non-empty index range, the sampler fails fatally
iff none of the first **9** checked batch draws is pairwise distinct — the
10th batch is drawn but, because `safecount < 10` short-circuits the loop
condition, it is never checked, so a distinct 10th draw still fails; in
particular for `nfit` greater than the size of the range every batch has a
repeat, so the sampler fails deterministically (it cannot hang: the loop
is bounded by 10 draws). -/
theorem fill_random_indices_retry_bound_amended (rng : ℕ → ℕ)
    (nfit a b p : ℕ) (hab : a < b) :
    (fill_random_indices rng nfit a b p = .error .fatal ↔
      ∀ t, t < 9 → ∀ batch, draw_batch rng a b (p + t * nfit) nfit = .ok batch →
        (are_different batch).2 = false) ∧
    (b - a < nfit → fill_random_indices rng nfit a b p = .error .fatal) := by
  have hiff := fill_go_fatal_iff rng nfit a b hab 10 p (by omega)
  constructor
  · rw [fill_random_indices, hiff]
    constructor
    · intro h t ht; exact h t (by omega)
    · intro h t ht; exact h t (by omega)
  · intro hsmall
    rw [fill_random_indices, hiff]
    intro t ht batch hdbT
    refine are_different_false_of_not_nodup batch (not_nodup_of_length_gt batch a b ?_ ?_)
    · exact draw_batch_ok_mem rng a b nfit _ batch hdbT
    · rw [draw_batch_ok_length rng a b nfit _ batch hdbT]
      exact hsmall

/-- Witness for the amended C5: range `[0, 2)` cannot yield 5 distinct
indices, so the sampler fails fatally. -/
theorem fill_random_indices_retry_bound_amended_witness :
    fill_random_indices (fun _ => 0) 5 0 2 0 = .error .fatal :=
  (fill_random_indices_retry_bound_amended (fun _ => 0) 5 0 2 0 (by omega)).2 (by omega)

/-- Counterexample to C5 as stated: with the stream that draws the
duplicate batch `[0, 0]` nine times and then the distinct batch `[0, 1]`,
pairwise distinctness *is* achieved within 10 batch draws (the 10th batch
is distinct), yet the sampler still fails fatally, because the 10th batch
is drawn but never checked. -/
theorem fill_random_indices_tenth_draw_counterexample :
    fill_random_indices (fun q => if q = 19 then 1 else 0) 2 0 2 0 = .error .fatal ∧
    draw_batch (fun q => if q = 19 then 1 else 0) 0 2 18 2 = .ok [0, 1] ∧
    (are_different [0, 1]).2 = true := by
  refine ⟨?_, ?_, ?_⟩ <;> rfl

/-! ## Lemmas about the consensus engine -/

/-- Once its allocations have succeeded, `ransac` is its trial loop
followed by the minimum-inlier gate. -/
theorem ransac_eq_gate (cfg : RansacCfg) (rng : ℕ → ℕ) (p : ℕ)
    (jm : List ℚ) (jk : List Bool) (bufs : Buffers) (best : BestRec) (q : ℕ)
    (h : ransac_trials cfg bufs.data rng (⟨0, jm, jk⟩, p) cfg.ntrials = .ok (best, q)) :
    ransac_after_alloc cfg rng p jm jk bufs =
      if cfg.min_inliers ≤ best.ninliers then
        .ok (best.ninliers, { bufs with out_model := best.model, out_mask := best.mask })
      else .ok (0, bufs) := by
  rw [ransac_after_alloc, h]

/-- If the allocated stage of `ransac` returns at all, its trial loop
returned. -/
theorem ransac_ok_inv (cfg : RansacCfg) (rng : ℕ → ℕ) (p : ℕ)
    (jm : List ℚ) (jk : List Bool) (bufs : Buffers) (r : ℕ) (bufs' : Buffers)
    (h : ransac_after_alloc cfg rng p jm jk bufs = .ok (r, bufs')) :
    ∃ best q, ransac_trials cfg bufs.data rng (⟨0, jm, jk⟩, p) cfg.ntrials = .ok (best, q) := by
  rw [ransac_after_alloc] at h
  cases ht : ransac_trials cfg bufs.data rng (⟨0, jm, jk⟩, p) cfg.ntrials with
  | error e => rw [ht] at h; cases h
  | ok bp =>
    obtain ⟨b1, q1⟩ := bp
    exact ⟨b1, q1, by rw [← ht]⟩

/-- C1: after the trial budget is exhausted (the hypothesis: the trial
loop, entered once the scratch allocations succeed, ran to completion),
if the best-so-far inlier count reaches `min_inliers` the engine
succeeds, returning that count and copying the best model and best mask
into the caller's buffers; otherwise it returns `0`, even if the
best-so-far record is non-trivial. -/
theorem ransac_threshold_gate (cfg : RansacCfg) (rng : ℕ → ℕ) (p : ℕ)
    (jm : List ℚ) (jk : List Bool) (bufs : Buffers) (best : BestRec) (q : ℕ)
    (h : ransac_trials cfg bufs.data rng (⟨0, jm, jk⟩, p) cfg.ntrials = .ok (best, q)) :
    (cfg.min_inliers ≤ best.ninliers →
      ransac_after_alloc cfg rng p jm jk bufs =
        .ok (best.ninliers, { bufs with out_model := best.model, out_mask := best.mask })) ∧
    (best.ninliers < cfg.min_inliers →
      ransac_after_alloc cfg rng p jm jk bufs = .ok (0, bufs)) := by
  rw [ransac_eq_gate cfg rng p jm jk bufs best q h]
  constructor
  · intro hge; rw [if_pos hge]
  · intro hlt; rw [if_neg (by omega)]

/-- Witness for C1: the tiny configuration finds one inlier; with
`min_inliers = 0` it succeeds with count 1 and writes the buffers, with
`min_inliers = 2` it returns 0. -/
theorem ransac_threshold_gate_witness :
    ransac cfgW rngW 0 [7] [false, false] bufsW =
      .ok (1, { data := [0, 5], out_model := [0], out_mask := [true, false] }) ∧
    ransac cfgM rngW 0 [7] [false, false] bufsW = .ok (0, bufsW) := by
  constructor
  · exact (ransac_threshold_gate cfgW rngW 0 [7] [false, false] bufsW
      ⟨1, [0], [true, false]⟩ 1 (by rfl)).1 (by decide)
  · exact (ransac_threshold_gate cfgM rngW 0 [7] [false, false] bufsW
      ⟨1, [0], [true, false]⟩ 1 (by rfl)).2 (by decide)

/-- C8: the engine leaves the data array as it found it, and on the
failure outcome (best-so-far count below `min_inliers`) it leaves the
caller's `out_model` and `out_mask` buffers completely unchanged; they
are (over)written only on the success outcome.  (Stated about the stage
after the scratch allocations; the allocation stage touches no caller
memory either, it can only abort.) -/
theorem ransac_frame_conditions (cfg : RansacCfg) (rng : ℕ → ℕ) (p : ℕ)
    (jm : List ℚ) (jk : List Bool) (bufs : Buffers) (r : ℕ) (bufs' : Buffers)
    (h : ransac_after_alloc cfg rng p jm jk bufs = .ok (r, bufs')) :
    bufs'.data = bufs.data ∧
    (∀ best q, ransac_trials cfg bufs.data rng (⟨0, jm, jk⟩, p) cfg.ntrials = .ok (best, q) →
      best.ninliers < cfg.min_inliers → bufs' = bufs) ∧
    (∀ best q, ransac_trials cfg bufs.data rng (⟨0, jm, jk⟩, p) cfg.ntrials = .ok (best, q) →
      cfg.min_inliers ≤ best.ninliers →
      bufs' = { bufs with out_model := best.model, out_mask := best.mask }) := by
  obtain ⟨best, q, ht⟩ := ransac_ok_inv cfg rng p jm jk bufs r bufs' h
  rw [ransac_eq_gate cfg rng p jm jk bufs best q ht] at h
  by_cases hge : cfg.min_inliers ≤ best.ninliers
  · rw [if_pos hge] at h
    cases h
    refine ⟨rfl, ?_, ?_⟩
    · intro best' q' ht' hlt
      rw [ht] at ht'
      cases ht'
      omega
    · intro best' q' ht' _
      rw [ht] at ht'
      cases ht'
      rfl
  · rw [if_neg hge] at h
    cases h
    refine ⟨rfl, fun _ _ _ _ => rfl, ?_⟩
    intro best' q' ht' hge'
    rw [ht] at ht'
    cases ht'
    omega

/-- Witness for C8: on the failing configuration the returned memory is
the untouched input memory. -/
theorem ransac_frame_conditions_witness :
    bufsW.data = bufsW.data ∧ bufsW = bufsW := by
  have h := ransac_frame_conditions cfgM rngW 0 [7] [false, false] bufsW 0 bufsW (by rfl)
  exact ⟨h.1, h.2.1 ⟨1, [0], [true, false]⟩ 1 (by rfl) (by decide)⟩

/-- A trial whose sampling aborts propagates the abort. -/
theorem trial_event_of_fill_error (cfg : RansacCfg) (data : List ℚ) (rng : ℕ → ℕ)
    (p : ℕ) (e : RFail) (h : fill_random_indices rng cfg.nfit 0 cfg.n p = .error e) :
    trial_event cfg data rng p = .err e := by
  rw [trial_event, h]

/-- A trial whose sampling succeeds proceeds to the acceptance check. -/
theorem trial_event_of_fill_ok (cfg : RansacCfg) (data : List ℚ) (rng : ℕ → ℕ)
    (p : ℕ) (ip : List ℕ × ℕ) (h : fill_random_indices rng cfg.nfit 0 cfg.n p = .ok ip) :
    trial_event cfg data rng p =
      match cfg.macc with
      | some acc =>
        if acc (cfg.mgen (materialize data cfg.datadim ip.1)) then
          score_event cfg data (cfg.mgen (materialize data cfg.datadim ip.1)) ip.2
        else .rejected ip.2
      | none => score_event cfg data (cfg.mgen (materialize data cfg.datadim ip.1)) ip.2 := by
  rw [trial_event, h]

/-- The trial loop body, written on an explicit state pair. -/
theorem ransac_trial_step_eq (cfg : RansacCfg) (data : List ℚ) (rng : ℕ → ℕ)
    (b : BestRec) (p : ℕ) :
    ransac_trial_step cfg data rng (b, p) =
      match trial_event cfg data rng p with
      | .err e => .error e
      | .rejected pN => .ok (b, pN)
      | .scored c model mask pN =>
        if b.ninliers < c then .ok (⟨c, model, mask⟩, pN) else .ok (b, pN) := rfl

/-- Scoring never reports a rejection. -/
theorem score_event_ne_rejected (cfg : RansacCfg) (data model : List ℚ) (pN pX : ℕ) :
    score_event cfg data model pN ≠ .rejected pX := by
  rw [score_event]
  cases ransac_trial data model cfg.max_error cfg.datadim cfg.n cfg.mev <;> simp

/-- With an all-rejecting acceptance predicate no trial ever reaches
scoring. -/
theorem trial_event_not_scored (cfg : RansacCfg) (data : List ℚ) (rng : ℕ → ℕ)
    (acc : List ℚ → Bool) (hacc : cfg.macc = some acc) (hall : ∀ m, acc m = false)
    (p c : ℕ) (model : List ℚ) (mask : List Bool) (pN : ℕ) :
    trial_event cfg data rng p ≠ .scored c model mask pN := by
  cases hf : fill_random_indices rng cfg.nfit 0 cfg.n p with
  | error e => rw [trial_event_of_fill_error cfg data rng p e hf]; simp
  | ok ip =>
    rw [trial_event_of_fill_ok cfg data rng p ip hf]
    simp [hacc, hall]

/-- With an all-rejecting acceptance predicate the best-so-far record is
never touched. -/
theorem ransac_trials_all_rejected (cfg : RansacCfg) (data : List ℚ) (rng : ℕ → ℕ)
    (acc : List ℚ → Bool) (hacc : cfg.macc = some acc) (hall : ∀ m, acc m = false) :
    ∀ k b0 p0 bk pk, ransac_trials cfg data rng (b0, p0) k = .ok (bk, pk) → bk = b0 := by
  intro k
  induction k with
  | zero =>
    intro b0 p0 bk pk h
    cases h
    rfl
  | succ k ih =>
    intro b0 p0 bk pk h
    rw [ransac_trials, ransac_trial_step_eq] at h
    cases hev : trial_event cfg data rng p0 with
    | err e => rw [hev] at h; cases h
    | rejected pN =>
      rw [hev] at h
      exact ih b0 pN bk pk h
    | scored c model mask pN =>
      exact absurd hev (trial_event_not_scored cfg data rng acc hacc hall p0 c model mask pN)

/-- C6: a trial whose candidate model is rejected by the configured
acceptance predicate is discarded at once — no scoring happens and the
best-so-far record is untouched (only the stream position advances); if
the predicate rejects every model the engine returns 0 regardless of the
data; and with no predicate configured a trial can never end in a
rejection. -/
theorem ransac_acceptance_gate (cfg : RansacCfg) (data : List ℚ) (rng : ℕ → ℕ) :
    (∀ acc, cfg.macc = some acc →
      ∀ (best : BestRec) (p : ℕ) (idx : List ℕ) (pN : ℕ),
        fill_random_indices rng cfg.nfit 0 cfg.n p = .ok (idx, pN) →
        acc (cfg.mgen (materialize data cfg.datadim idx)) = false →
        ransac_trial_step cfg data rng (best, p) = .ok (best, pN)) ∧
    (cfg.macc = none → ∀ p pX, trial_event cfg data rng p ≠ .rejected pX) ∧
    (∀ acc, cfg.macc = some acc → (∀ m, acc m = false) →
      ∀ (p : ℕ) (jm : List ℚ) (jk : List Bool) (bufs : Buffers) (r : ℕ) (bufs' : Buffers),
        ransac_after_alloc cfg rng p jm jk bufs = .ok (r, bufs') → r = 0) := by
  refine ⟨?_, ?_, ?_⟩
  · intro acc hacc best p idx pN hfill hrej
    have hev : trial_event cfg data rng p = .rejected pN := by
      rw [trial_event_of_fill_ok cfg data rng p (idx, pN) hfill]
      simp [hacc, hrej]
    rw [ransac_trial_step_eq, hev]
  · intro hnone p pX
    cases hf : fill_random_indices rng cfg.nfit 0 cfg.n p with
    | error e => rw [trial_event_of_fill_error cfg data rng p e hf]; simp
    | ok ip =>
      rw [trial_event_of_fill_ok cfg data rng p ip hf, hnone]
      exact score_event_ne_rejected cfg data _ ip.2 pX
  · intro acc hacc hall p jm jk bufs r bufs' h
    obtain ⟨best, q, ht⟩ := ransac_ok_inv cfg rng p jm jk bufs r bufs' h
    have hbest : best = ⟨0, jm, jk⟩ :=
      ransac_trials_all_rejected cfg bufs.data rng acc hacc hall cfg.ntrials _ p best q ht
    rw [ransac_eq_gate cfg rng p jm jk bufs best q ht, hbest] at h
    by_cases hge : cfg.min_inliers ≤ (0 : ℕ)
    · rw [if_pos hge] at h
      cases h
      rfl
    · rw [if_neg hge] at h
      cases h
      rfl

/-- Witness for C6: the always-false predicate makes the single trial a
no-op on the record and the whole engine return 0. -/
theorem ransac_acceptance_gate_witness :
    ransac_trial_step cfgA [0, 5] rngW (⟨0, [7], [false, false]⟩, 0) =
      .ok (⟨0, [7], [false, false]⟩, 1) ∧ (0 : ℕ) = 0 := by
  constructor
  · exact (ransac_acceptance_gate cfgA [0, 5] rngW).1 (fun _ => false) (by rfl)
      ⟨0, [7], [false, false]⟩ 0 [0] 1 (by rfl) (by rfl)
  · exact (ransac_acceptance_gate cfgA [0, 5] rngW).2.2 (fun _ => false) (by rfl)
      (fun _ => rfl) 0 [7] [false, false] bufsW 0
      { bufsW with out_model := [7], out_mask := [false, false] } (by rfl)

/-- Peeling the *last* trial off the loop, error case. -/
theorem ransac_trials_succ_of_error (cfg : RansacCfg) (data : List ℚ) (rng : ℕ → ℕ) :
    ∀ k st e, ransac_trials cfg data rng st k = .error e →
      ransac_trials cfg data rng st (k + 1) = .error e := by
  intro k
  induction k with
  | zero => intro st e h; cases h
  | succ k ih =>
    intro st e h
    have hf1 : ransac_trials cfg data rng st (k + 1) =
        match ransac_trial_step cfg data rng st with
        | .error e' => .error e'
        | .ok s => ransac_trials cfg data rng s k := rfl
    have hf2 : ransac_trials cfg data rng st (k + 1 + 1) =
        match ransac_trial_step cfg data rng st with
        | .error e' => .error e'
        | .ok s => ransac_trials cfg data rng s (k + 1) := rfl
    rw [hf1] at h
    rw [hf2]
    cases hs : ransac_trial_step cfg data rng st with
    | error e' => rw [hs] at h; exact h
    | ok s =>
      rw [hs] at h
      exact ih s e h

/-- Peeling the *last* trial off the loop, success case: `k + 1` trials
are `k` trials followed by one `ransac_trial_step`. -/
theorem ransac_trials_succ_of_ok (cfg : RansacCfg) (data : List ℚ) (rng : ℕ → ℕ) :
    ∀ k st st', ransac_trials cfg data rng st k = .ok st' →
      ransac_trials cfg data rng st (k + 1) = ransac_trial_step cfg data rng st' := by
  intro k
  induction k with
  | zero =>
    intro st st' h
    cases h
    have hf : ransac_trials cfg data rng st 1 =
        match ransac_trial_step cfg data rng st with
        | .error e => .error e
        | .ok s => ransac_trials cfg data rng s 0 := rfl
    rw [hf]
    cases ransac_trial_step cfg data rng st <;> rfl
  | succ k ih =>
    intro st st' h
    have hf1 : ransac_trials cfg data rng st (k + 1) =
        match ransac_trial_step cfg data rng st with
        | .error e => .error e
        | .ok s => ransac_trials cfg data rng s k := rfl
    have hf2 : ransac_trials cfg data rng st (k + 1 + 1) =
        match ransac_trial_step cfg data rng st with
        | .error e => .error e
        | .ok s => ransac_trials cfg data rng s (k + 1) := rfl
    rw [hf1] at h
    rw [hf2]
    cases hs : ransac_trial_step cfg data rng st with
    | error e => rw [hs] at h; cases h
    | ok s =>
      rw [hs] at h
      exact ih s st' h

/-- One trial can only improve the best-so-far count, and when the count
does not strictly improve the record itself is kept. -/
theorem ransac_trial_step_mono (cfg : RansacCfg) (data : List ℚ) (rng : ℕ → ℕ)
    (b : BestRec) (p : ℕ) (st' : BestRec × ℕ)
    (h : ransac_trial_step cfg data rng (b, p) = .ok st') :
    b.ninliers ≤ st'.1.ninliers ∧ (st'.1.ninliers = b.ninliers → st'.1 = b) := by
  rw [ransac_trial_step_eq] at h
  cases hev : trial_event cfg data rng p with
  | err e => rw [hev] at h; cases h
  | rejected pN =>
    rw [hev] at h
    cases h
    exact ⟨le_refl _, fun _ => rfl⟩
  | scored c model mask pN =>
    rw [hev] at h
    have h' : (if b.ninliers < c then
          (Except.ok (⟨c, model, mask⟩, pN) : Except RFail (BestRec × ℕ))
        else .ok (b, pN)) = .ok st' := h
    by_cases hlt : b.ninliers < c
    · rw [if_pos hlt] at h'
      cases h'
      exact ⟨Nat.le_of_lt hlt, fun he => absurd he (by simp; omega)⟩
    · rw [if_neg hlt] at h'
      cases h'
      exact ⟨le_refl _, fun _ => rfl⟩

/-- `accepted_counts` when the trial aborts. -/
theorem accepted_counts_succ_err (cfg : RansacCfg) (data : List ℚ) (rng : ℕ → ℕ)
    (p k : ℕ) (e : RFail) (h : trial_event cfg data rng p = .err e) :
    accepted_counts cfg data rng p (k + 1) = [] := by
  rw [accepted_counts, h]

/-- `accepted_counts` when the trial is rejected by the predicate. -/
theorem accepted_counts_succ_rejected (cfg : RansacCfg) (data : List ℚ) (rng : ℕ → ℕ)
    (p k pN : ℕ) (h : trial_event cfg data rng p = .rejected pN) :
    accepted_counts cfg data rng p (k + 1) = accepted_counts cfg data rng pN k := by
  rw [accepted_counts, h]

/-- `accepted_counts` when the trial is scored. -/
theorem accepted_counts_succ_scored (cfg : RansacCfg) (data : List ℚ) (rng : ℕ → ℕ)
    (p k c : ℕ) (model : List ℚ) (mask : List Bool) (pN : ℕ)
    (h : trial_event cfg data rng p = .scored c model mask pN) :
    accepted_counts cfg data rng p (k + 1) = c :: accepted_counts cfg data rng pN k := by
  rw [accepted_counts, h]

/-- Folding `max` from a larger seed. -/
theorem foldr_max_pair (l : List ℕ) (x y : ℕ) :
    l.foldr max (max x y) = max x (l.foldr max y) := by
  induction l with
  | nil => rfl
  | cons z t ih =>
    show max z (t.foldr max (max x y)) = max x (max z (t.foldr max y))
    rw [ih]
    omega

/-- The seed never exceeds a `max` fold. -/
theorem le_foldr_max (l : List ℕ) (y : ℕ) : y ≤ l.foldr max y := by
  induction l with
  | nil => exact le_refl y
  | cons z t ih => exact le_trans ih (le_max_right z _)

/-- After `k` trials the best-so-far count is the `max`-fold of the
accepted trials' counts over the starting count. -/
theorem ransac_trials_foldr_max (cfg : RansacCfg) (data : List ℚ) (rng : ℕ → ℕ) :
    ∀ k b0 p0 bk pk, ransac_trials cfg data rng (b0, p0) k = .ok (bk, pk) →
      bk.ninliers = (accepted_counts cfg data rng p0 k).foldr max b0.ninliers := by
  intro k
  induction k with
  | zero =>
    intro b0 p0 bk pk h
    cases h
    rfl
  | succ k ih =>
    intro b0 p0 bk pk h
    have hf : ransac_trials cfg data rng (b0, p0) (k + 1) =
        match ransac_trial_step cfg data rng (b0, p0) with
        | .error e => .error e
        | .ok s => ransac_trials cfg data rng s k := rfl
    cases hs : ransac_trial_step cfg data rng (b0, p0) with
    | error e => rw [hf, hs] at h; cases h
    | ok s =>
      rw [hf, hs] at h
      have h2 : ransac_trials cfg data rng s k = .ok (bk, pk) := h
      cases hev : trial_event cfg data rng p0 with
      | err e =>
        have : (Except.error e : Except RFail (BestRec × ℕ)) = .ok s := by
          rw [← hs, ransac_trial_step_eq, hev]
        cases this
      | rejected pN =>
        have hsN : (Except.ok (b0, pN) : Except RFail (BestRec × ℕ)) = .ok s := by
          rw [← hs, ransac_trial_step_eq, hev]
        cases hsN
        rw [accepted_counts_succ_rejected cfg data rng p0 k pN hev]
        exact ih b0 pN bk pk h2
      | scored c model mask pN =>
        have hsN : (if b0.ninliers < c then
              (Except.ok ((⟨c, model, mask⟩ : BestRec), pN) : Except RFail (BestRec × ℕ))
            else .ok (b0, pN)) = .ok s := by
          rw [← hs, ransac_trial_step_eq, hev]
        rw [accepted_counts_succ_scored cfg data rng p0 k c model mask pN hev]
        show bk.ninliers = max c ((accepted_counts cfg data rng pN k).foldr max b0.ninliers)
        by_cases hlt : b0.ninliers < c
        · rw [if_pos hlt] at hsN
          cases hsN
          have hres := ih ⟨c, model, mask⟩ pN bk pk h2
          rw [hres]
          show (accepted_counts cfg data rng pN k).foldr max c = _
          have hmc : c = max c b0.ninliers := by omega
          rw [hmc, foldr_max_pair]
          omega
        · rw [if_neg hlt] at hsN
          cases hsN
          have hres := ih b0 pN bk pk h2
          rw [hres]
          have h1 : c ≤ (accepted_counts cfg data rng pN k).foldr max b0.ninliers :=
            le_trans (by omega) (le_foldr_max _ _)
          omega

/-- C2: the best-so-far count starts at 0, never decreases from one trial
to the next, after `k` trials equals the maximum count among the accepted
(scored) trials so far, and the record changes only on a strict
improvement — on ties the earlier-found record is kept. -/
theorem ransac_best_so_far_invariant (cfg : RansacCfg) (data : List ℚ) (rng : ℕ → ℕ)
    (jm : List ℚ) (jk : List Bool) (p : ℕ) :
    ransac_trials cfg data rng (⟨0, jm, jk⟩, p) 0 = .ok (⟨0, jm, jk⟩, p) ∧
    (∀ k bk pk st', ransac_trials cfg data rng (⟨0, jm, jk⟩, p) k = .ok (bk, pk) →
      ransac_trials cfg data rng (⟨0, jm, jk⟩, p) (k + 1) = .ok st' →
      bk.ninliers ≤ st'.1.ninliers ∧ (st'.1.ninliers = bk.ninliers → st'.1 = bk)) ∧
    (∀ k bk pk, ransac_trials cfg data rng (⟨0, jm, jk⟩, p) k = .ok (bk, pk) →
      bk.ninliers = (accepted_counts cfg data rng p k).foldr max 0) := by
  refine ⟨rfl, ?_, ?_⟩
  · intro k bk pk st' hk hk1
    rw [ransac_trials_succ_of_ok cfg data rng k _ _ hk] at hk1
    exact ransac_trial_step_mono cfg data rng bk pk st' hk1
  · intro k bk pk hk
    exact ransac_trials_foldr_max cfg data rng k ⟨0, jm, jk⟩ p bk pk hk

/-- Witness for C2: on the tiny configuration, zero trials keep the
initial record, one trial does not decrease the count, and after one
trial the count is the max of the accepted counts. -/
theorem ransac_best_so_far_invariant_witness :
    ransac_trials cfgW [0, 5] rngW (⟨0, [7], [false, false]⟩, 0) 0 =
      .ok (⟨0, [7], [false, false]⟩, 0) ∧
    (0 : ℕ) ≤ 1 ∧
    (1 : ℕ) = (accepted_counts cfgW [0, 5] rngW 0 1).foldr max 0 := by
  have h := ransac_best_so_far_invariant cfgW [0, 5] rngW [7] [false, false] 0
  refine ⟨h.1, ?_, ?_⟩
  · exact (h.2.1 0 ⟨0, [7], [false, false]⟩ 0 (⟨1, [0], [true, false]⟩, 1)
      (by rfl) (by rfl)).1
  · exact h.2.2 1 ⟨1, [0], [true, false]⟩ 1 (by rfl)

/-- With a non-empty index range the retry loop never hits the undefined
modulo. -/
theorem fill_go_ne_ub (rng : ℕ → ℕ) (nidx a b : ℕ) (hab : a < b) :
    ∀ al p, fill_go rng nidx a b p al ≠ .error .ub := by
  intro al
  induction al with
  | zero => intro p h; cases h
  | succ al ih =>
    intro p h
    obtain ⟨batch, hdb⟩ := draw_batch_isOk rng a b hab nidx p
    rw [fill_go_succ_of_ok rng nidx a b p al batch hdb] at h
    by_cases h0 : al = 0
    · rw [if_pos h0] at h; cases h
    · rw [if_neg h0] at h
      by_cases hdiff : (are_different batch).2 = true
      · rw [if_pos hdiff] at h; cases h
      · rw [if_neg hdiff] at h
        exact ih (p + nidx) h

/-- The only abnormal exit of scoring is the assertion violation. -/
theorem score_event_err_eq (cfg : RansacCfg) (data model : List ℚ) (pN : ℕ) (e : RFail)
    (h : score_event cfg data model pN = .err e) : e = .assertViolation := by
  rw [score_event] at h
  cases hr : ransac_trial data model cfg.max_error cfg.datadim cfg.n cfg.mev with
  | error e' =>
    rw [hr] at h
    cases h
    exact trial_go_error_eq data model cfg.max_error cfg.datadim cfg.mev _ _ e hr
  | ok mc => rw [hr] at h; cases h

/-- With at least one data point, no trial can abort with the undefined
modulo. -/
theorem trial_event_err_ne_ub (cfg : RansacCfg) (data : List ℚ) (rng : ℕ → ℕ)
    (p : ℕ) (e : RFail) (hn : 1 ≤ cfg.n)
    (h : trial_event cfg data rng p = .err e) : e ≠ .ub := by
  cases hf : fill_random_indices rng cfg.nfit 0 cfg.n p with
  | error e' =>
    rw [trial_event_of_fill_error cfg data rng p e' hf] at h
    cases h
    intro hub
    rw [hub] at hf
    exact fill_go_ne_ub rng cfg.nfit 0 cfg.n hn 10 p hf
  | ok ip =>
    rw [trial_event_of_fill_ok cfg data rng p ip hf] at h
    cases hm : cfg.macc with
    | none =>
      rw [hm] at h
      rw [score_event_err_eq cfg data _ ip.2 e h]
      intro hx; cases hx
    | some acc =>
      rw [hm] at h
      have h' : (if acc (cfg.mgen (materialize data cfg.datadim ip.1)) = true then
            score_event cfg data (cfg.mgen (materialize data cfg.datadim ip.1)) ip.2
          else .rejected ip.2) = .err e := h
      by_cases hok : acc (cfg.mgen (materialize data cfg.datadim ip.1)) = true
      · rw [if_pos hok] at h'
        rw [score_event_err_eq cfg data _ ip.2 e h']
        intro hx; cases hx
      · rw [if_neg hok] at h'
        cases h'

/-- With at least one data point, the trial loop never aborts with the
undefined modulo. -/
theorem ransac_trials_ne_ub (cfg : RansacCfg) (data : List ℚ) (rng : ℕ → ℕ)
    (hn : 1 ≤ cfg.n) :
    ∀ k st, ransac_trials cfg data rng st k ≠ .error .ub := by
  intro k
  induction k with
  | zero => intro st h; cases h
  | succ k ih =>
    intro ⟨b0, p0⟩ h
    have hf : ransac_trials cfg data rng (b0, p0) (k + 1) =
        match ransac_trial_step cfg data rng (b0, p0) with
        | .error e => .error e
        | .ok s => ransac_trials cfg data rng s k := rfl
    cases hs : ransac_trial_step cfg data rng (b0, p0) with
    | error e =>
      rw [hf, hs] at h
      cases h
      rw [ransac_trial_step_eq] at hs
      cases hev : trial_event cfg data rng p0 with
      | err e' =>
        rw [hev] at hs
        cases hs
        exact trial_event_err_ne_ub cfg data rng p0 _ hn hev rfl
      | rejected pN => rw [hev] at hs; cases hs
      | scored c model mask pN =>
        rw [hev] at hs
        have hs' : (if b0.ninliers < c then
              (Except.ok ((⟨c, model, mask⟩ : BestRec), pN) : Except RFail (BestRec × ℕ))
            else .ok (b0, pN)) = .error .ub := hs
        by_cases hlt : b0.ninliers < c
        · rw [if_pos hlt] at hs'; cases hs'
        · rw [if_neg hlt] at hs'; cases hs'
    | ok s =>
      rw [hf, hs] at h
      exact ih s h

/-- With at least one data point the scratch allocations succeed and
`ransac` proceeds to its trial loop. -/
theorem ransac_eq_after_alloc (cfg : RansacCfg) (rng : ℕ → ℕ) (p : ℕ)
    (jm : List ℚ) (jk : List Bool) (bufs : Buffers) (hn : 1 ≤ cfg.n) :
    ransac cfg rng p jm jk bufs = ransac_after_alloc cfg rng p jm jk bufs := by
  rw [ransac, xmalloc, if_neg (by omega)]

/-- With no data points, `xmalloc` receives a zero-size request for
`best_mask` and aborts fatally before the first trial. -/
theorem ransac_of_zero_n (cfg : RansacCfg) (rng : ℕ → ℕ) (p : ℕ)
    (jm : List ℚ) (jk : List Bool) (bufs : Buffers) (hn : cfg.n = 0) :
    ransac cfg rng p jm jk bufs = .error .allocFailure := by
  rw [ransac, xmalloc, if_pos hn]

/-- With at least one data point the allocated stage never aborts with
the undefined modulo. -/
theorem ransac_after_alloc_ne_ub (cfg : RansacCfg) (rng : ℕ → ℕ) (p : ℕ)
    (jm : List ℚ) (jk : List Bool) (bufs : Buffers) (hn : 1 ≤ cfg.n) :
    ransac_after_alloc cfg rng p jm jk bufs ≠ .error .ub := by
  intro h
  rw [ransac_after_alloc] at h
  cases ht : ransac_trials cfg bufs.data rng (⟨0, jm, jk⟩, p) cfg.ntrials with
  | error e =>
    rw [ht] at h
    cases h
    exact ransac_trials_ne_ub cfg bufs.data rng hn cfg.ntrials _ ht
  | ok bp =>
    rw [ht] at h
    have h' : (if cfg.min_inliers ≤ bp.1.ninliers then
          (Except.ok (bp.1.ninliers,
            { bufs with out_model := bp.1.model, out_mask := bp.1.mask }) :
              Except RFail (ℕ × Buffers))
        else .ok (0, bufs)) = .error .ub := h
    by_cases hge : cfg.min_inliers ≤ bp.1.ninliers
    · rw [if_pos hge] at h'; cases h'
    · rw [if_neg hge] at h'; cases h'

/-- Counterexample to C10 as stated: on the empty data set (`n = 0`,
`nfit = 1`, `ntrials = 1`) the engine aborts in the zero-size scratch
allocation of line 148 (`xmalloc(n * sizeof *best_mask)`, modelled from
its fatal zero-size behaviour) before the sampler ever runs, so the
invocation does not end in the sampler's modulo-by-zero. -/
theorem ransac_empty_data_counterexample :
    ransac cfg0 rngW 0 [7] [false, false] bufsW = .error .allocFailure ∧
    RFail.allocFailure ≠ RFail.ub :=
  ⟨rfl, by decide⟩

/-- C10 (amended): `random_index` computes `a + rand() % (b - a)` and is
well-defined only when `b > a`; with `n ≥ 1` every modulo taken during a
`ransac` invocation is by a positive number, so `ransac` never aborts
with the undefined modulo; with `n = 0` the engine never reaches a
sampler draw at all — the zero-size scratch allocation aborts fatally
first — while the sampler itself, entered over an empty index range with
at least one index requested, would take a modulo by zero on its very
first draw.  Either way the engine requires a non-empty data set. -/
theorem random_index_mod_well_defined (cfg : RansacCfg) (rng : ℕ → ℕ) (p : ℕ)
    (jm : List ℚ) (jk : List Bool) (bufs : Buffers) :
    (∀ r a b, a < b → random_index r a b = .ok (a + r % (b - a))) ∧
    (∀ r a b, b ≤ a → random_index r a b = .error .ub) ∧
    (1 ≤ cfg.n → ransac cfg rng p jm jk bufs ≠ .error .ub) ∧
    (cfg.n = 0 → ransac cfg rng p jm jk bufs = .error .allocFailure) ∧
    (∀ nidx q, 1 ≤ nidx → fill_random_indices rng nidx 0 0 q = .error .ub) := by
  refine ⟨random_index_of_lt, random_index_of_ge, ?_, ?_, ?_⟩
  · intro hn
    rw [ransac_eq_after_alloc cfg rng p jm jk bufs hn]
    exact ransac_after_alloc_ne_ub cfg rng p jm jk bufs hn
  · intro hn0
    exact ransac_of_zero_n cfg rng p jm jk bufs hn0
  · intro nidx q hnidx
    rw [fill_random_indices]
    exact fill_go_succ_of_error rng nidx 0 0 q 9 .ub
      (draw_batch_ub rng 0 0 (by omega) nidx q hnidx)

/-- Witness for the amended C10: concrete draws, UB-freedom on the
2-point data set, the allocation abort on the empty data set, and the
modulo-by-zero the sampler would take over an empty range. -/
theorem random_index_mod_well_defined_witness :
    random_index 5 1 3 = .ok 2 ∧
    random_index 5 3 3 = .error .ub ∧
    ransac cfgW rngW 0 [7] [false, false] bufsW ≠ .error .ub ∧
    ransac cfg0 rngW 0 [7] [false, false] bufsW = .error .allocFailure ∧
    fill_random_indices rngW 1 0 0 0 = .error .ub := by
  have h := random_index_mod_well_defined cfgW rngW 0 [7] [false, false] bufsW
  have h0 := random_index_mod_well_defined cfg0 rngW 0 [7] [false, false] bufsW
  exact ⟨h.1 5 1 3 (by omega), h.2.1 5 3 3 (by omega), h.2.2.1 (by decide),
    h0.2.2.2.1 (by decide), h.2.2.2.2 1 0 (by decide)⟩

end RansacC
